import Mathlib

/-!
Verification of the mlevels methylation-level summarizer (Rust, src/src/lib.rs
and src/src/main.rs) against its natural-language specification.

The development shallow-embeds the core of the program:

* `wilson_ci_for_binomial` — the Wilson score confidence interval routine
  (src/src/lib.rs lines 40–65), modelled over `ℝ`.  The standard normal
  distribution object comes from the external `statrs` crate; its inverse CDF
  is abstracted as a function parameter `phi_inv : ℝ → ℝ`, and the source's
  `g.inverse_cdf(1.0 - alpha/2.0)` becomes `phi_inv (1 - alpha / 2)`.
* `LevelsCounter` and its operations `update`, `set_derived_values` and the
  `get_*` helpers (lines 67–159).  Machine `u64` fields become `ℕ`; the `f64`
  accumulator `mean_agg` becomes `ℚ` (every finite `f64` is rational); the
  derived `f64` fields use the small `F64` type below, which models the IEEE
  special values produced by dividing by zero.  Inside `update`, the call to
  `wilson_ci_for_binomial` at `ALPHA = 0.05` is abstracted as a function
  parameter `ci : ℕ → ℚ → ℚ × ℚ` giving the (finite, hence rational) pair of
  interval bounds the floating-point routine returns.
* the driver loop of `run_mlevels` (lines 182–261), as a step function
  `processLine` over an explicit `DriverState` and a fold `processAll`;
  `process::exit(1)` becomes an `Except` error and each input line is an
  `Option MSite` (`none` models a line `MSite::build` fails to parse).

The `MSite` record and its methods live in the external `msite` crate, outside
this repository; they are modelled from the spec's collaborator interface
(spec sections 3 and 6) and each such definition is marked
`Modelled from the spec:` in its doc comment.
-/

namespace Mlevels

/-! ## Wilson score confidence interval (src/src/lib.rs lines 40–65) -/

/-- The first term of the Wilson interval, `(p_hat + z²/2n)/denom` with
`denom = 1 + z²/n`, written exactly as the source computes it
(`zz = z*z`, `denom = 1.0 + zz/n`, `first_term = (p_hat + zz/(2.0*n))/denom`). -/
noncomputable def wilson_first_term (z : ℝ) (n : ℕ) (p_hat : ℝ) : ℝ :=
  (p_hat + z * z / (2 * (n : ℝ))) / (1 + z * z / (n : ℝ))

/-- The second term of the Wilson interval,
`z * sqrt(p_hat*(1-p_hat)/n + z²/(4n²)) / denom`, as in the source
(`discriminant`, then `second_term = z*discriminant.sqrt()/denom`). -/
noncomputable def wilson_second_term (z : ℝ) (n : ℕ) (p_hat : ℝ) : ℝ :=
  z * Real.sqrt (p_hat * (1 - p_hat) / (n : ℝ) + z * z / (4 * (n : ℝ) * (n : ℝ)))
    / (1 + z * z / (n : ℝ))

/-- The pair assembled from the two terms with the source's clamping:
`*lower = first_term - second_term; if *lower < 0.0 { *lower = 0.0 }` and
`*upper = first_term + second_term; if *upper > 1.0 { *upper = 1.0 }`. -/
noncomputable def wilson_pair (z : ℝ) (n : ℕ) (p_hat : ℝ) : ℝ × ℝ :=
  (if wilson_first_term z n p_hat - wilson_second_term z n p_hat < 0 then 0
   else wilson_first_term z n p_hat - wilson_second_term z n p_hat,
   if wilson_first_term z n p_hat + wilson_second_term z n p_hat > 1 then 1
   else wilson_first_term z n p_hat + wilson_second_term z n p_hat)

/-- `wilson_ci_for_binomial` from src/src/lib.rs lines 40–65.  The source's
`let z = g.inverse_cdf(1.0 - alpha/2.0)` on the standard normal `g` is
rendered as `phi_inv (1 - alpha / 2)` for the abstract inverse-CDF parameter
`phi_inv` (the `statrs` normal distribution is external to this repository). -/
noncomputable def wilson_ci_for_binomial (phi_inv : ℝ → ℝ) (alpha : ℝ) (n : ℕ)
    (p_hat : ℝ) : ℝ × ℝ :=
  wilson_pair (phi_inv (1 - alpha / 2)) n p_hat

/-- Modelled from the spec: the contract of §4.1 for `wilson_interval`,
written from the spec's own words — `z` the upper `(1 − alpha/2)` quantile
(the same abstract inverse CDF applied to `1 - alpha/2`),
`denom = 1 + z²/n`, `center = (p_hat + z²/(2n))/denom`,
`spread = z·sqrt(p_hat(1−p_hat)/n + z²/(4n²))/denom`, lower bound clamped up
to 0 and upper bound clamped down to 1. -/
noncomputable def wilson_interval_spec (phi_inv : ℝ → ℝ) (alpha : ℝ) (n : ℕ)
    (p_hat : ℝ) : ℝ × ℝ :=
  let z : ℝ := phi_inv (1 - alpha / 2)
  let denom : ℝ := 1 + z ^ 2 / (n : ℝ)
  let center : ℝ := (p_hat + z ^ 2 / (2 * (n : ℝ))) / denom
  let spread : ℝ :=
    z * Real.sqrt (p_hat * (1 - p_hat) / (n : ℝ) + z ^ 2 / (4 * (n : ℝ) ^ 2)) / denom
  (max (center - spread) 0, min (center + spread) 1)

/-! ## The site record (external `msite` crate, modelled from the spec) -/

/-- Modelled from the spec: the sequence-context tag of a site, sufficient to
classify it as CpG / CHH / CCG / CXG; `other` covers a record matching none of
the four classes (the classification-failure case of §7). -/
inductive Ctx where
  | cpg : Ctx
  | chh : Ctx
  | ccg : Ctx
  | cxg : Ctx
  | other : Ctx
deriving DecidableEq

/-- Modelled from the spec: the Site Record of §3 (external `msite` crate).
`meth` is the methylated read proportion as the finite `f64` the parser
produced, modelled as `ℚ`; `mutated` is the value of `is_mutated()`. -/
structure MSite where
  chrom : ℕ
  pos : ℕ
  fwd_strand : Bool
  ctx : Ctx
  mutated : Bool
  n_reads : ℕ
  meth : ℚ
deriving DecidableEq

/-- Modelled from the spec: `SiteRecord.is_mutated()`. -/
def MSite.is_mutated (s : MSite) : Bool := s.mutated

/-- Modelled from the spec: `SiteRecord.is_cpg()`. -/
def MSite.is_cpg (s : MSite) : Bool := s.ctx == Ctx.cpg

/-- Modelled from the spec: `SiteRecord.is_chh()`. -/
def MSite.is_chh (s : MSite) : Bool := s.ctx == Ctx.chh

/-- Modelled from the spec: `SiteRecord.is_ccg()`. -/
def MSite.is_ccg (s : MSite) : Bool := s.ctx == Ctx.ccg

/-- Modelled from the spec: `SiteRecord.is_cxg()`. -/
def MSite.is_cxg (s : MSite) : Bool := s.ctx == Ctx.cxg

/-- Modelled from the spec: `SiteRecord.n_meth()`, the methylated read count
`round(meth * n_reads)` implied by §3. -/
def MSite.n_meth (s : MSite) : ℕ := (round (s.meth * (s.n_reads : ℚ))).toNat

/-- Modelled from the spec: `SiteRecord.is_mate_of(other)` — the mate test of
§4.3: adjacent positions and complementary strand/context (a forward-strand
CpG whose reverse-strand CpG partner sits one position downstream). -/
def MSite.is_mate_of (prev s : MSite) : Bool :=
  prev.chrom == s.chrom && prev.fwd_strand && !s.fwd_strand &&
    prev.pos + 1 == s.pos && prev.is_cpg && s.is_cpg

/-- Modelled from the spec: `SiteRecord.merge` / the `add` method of §4.3 —
read counts and methylated-read counts summed field-wise, the methylation
fraction recomputed from the summed counts. -/
def MSite.add (a s : MSite) : MSite :=
  { a with
    n_reads := a.n_reads + s.n_reads,
    meth := ((a.n_meth + s.n_meth : ℕ) : ℚ) / ((a.n_reads + s.n_reads : ℕ) : ℚ) }

/-- Modelled from the spec: `MSite::new()`, the empty default site the driver
stores before any record has been seen. -/
def MSite.new : MSite :=
  { chrom := 0, pos := 0, fwd_strand := false, ctx := Ctx.other,
    mutated := false, n_reads := 0, meth := 0 }

/-! ## IEEE `f64` values produced by the derived-statistics divisions -/

/-- A model of the `f64` values the derived fields can hold: a finite value
(exact, as `ℚ`), or one of the special values NaN / +∞ / −∞ produced by
dividing by zero. -/
inductive F64 where
  | fin : ℚ → F64
  | nan : F64
  | pinf : F64
  | ninf : F64
deriving DecidableEq

/-- IEEE `f64` division of finite values: `0/0` is NaN, `±x/0` is `±∞` for
`x ≠ 0`, and division by a nonzero denominator is finite (modelled exactly). -/
def fdiv (a b : ℚ) : F64 :=
  if b = 0 then
    if a = 0 then F64.nan
    else if 0 < a then F64.pinf
    else F64.ninf
  else F64.fin (a / b)

/-! ## LevelsCounter (src/src/lib.rs lines 67–159) -/

/-- `struct LevelsCounter` from src/src/lib.rs lines 67–87.  The `u64` raw
tallies become `ℕ`, the `f64` running sum `mean_agg` becomes `ℚ`, and the
derived `f64` fields use `F64`. -/
structure LevelsCounter where
  total_sites : ℕ
  sites_covered : ℕ
  total_c : ℕ
  total_t : ℕ
  max_depth : ℕ
  mutations : ℕ
  called_meth : ℕ
  called_unmeth : ℕ
  mean_agg : ℚ
  coverage : ℕ
  sites_covered_fraction : F64
  mean_depth : F64
  mean_depth_covered : F64
  mean_meth : F64
  mean_meth_weighted : F64
  fractional_meth : F64
deriving DecidableEq

/-- `Default::default()` for `LevelsCounter`: all tallies zero, all `f64`
fields `0.0`. -/
def LevelsCounter.default : LevelsCounter :=
  { total_sites := 0, sites_covered := 0, total_c := 0, total_t := 0,
    max_depth := 0, mutations := 0, called_meth := 0, called_unmeth := 0,
    mean_agg := 0, coverage := 0,
    sites_covered_fraction := F64.fin 0, mean_depth := F64.fin 0,
    mean_depth_covered := F64.fin 0, mean_meth := F64.fin 0,
    mean_meth_weighted := F64.fin 0, fractional_meth := F64.fin 0 }

/-- `LevelsCounter::update` from src/src/lib.rs lines 92–116.  The parameter
`ci` stands for the floating-point call
`wilson_ci_for_binomial(LevelsCounter::ALPHA, s.n_reads, s.meth)` at
`ALPHA = 0.05`, returning the (finite) pair `(lower, upper)`; `0.5` is the
exact rational `1/2`. -/
def LevelsCounter.update (ci : ℕ → ℚ → ℚ × ℚ) (c : LevelsCounter) (s : MSite) :
    LevelsCounter :=
  let c :=
    if s.is_mutated then
      { c with mutations := c.mutations + 1 }
    else if 0 < s.n_reads then
      let lower := (ci s.n_reads s.meth).1
      let upper := (ci s.n_reads s.meth).2
      let c :=
        { c with
          sites_covered := c.sites_covered + 1,
          max_depth := max c.max_depth s.n_reads,
          total_c := c.total_c + s.n_meth,
          total_t := c.total_t + (s.n_reads - s.n_meth),
          mean_agg := c.mean_agg + s.meth }
      let c :=
        if 1 / 2 < lower then { c with called_meth := c.called_meth + 1 } else c
      if upper < 1 / 2 then { c with called_unmeth := c.called_unmeth + 1 } else c
    else c
  { c with total_sites := c.total_sites + 1 }

/-- `LevelsCounter::get_coverage` (lines 117–119). -/
def LevelsCounter.get_coverage (c : LevelsCounter) : ℕ := c.total_c + c.total_t

/-- `LevelsCounter::get_total_called` (lines 120–122). -/
def LevelsCounter.get_total_called (c : LevelsCounter) : ℕ :=
  c.called_meth + c.called_unmeth

/-- `LevelsCounter::get_mean_meth_weighted` (lines 123–125). -/
def LevelsCounter.get_mean_meth_weighted (c : LevelsCounter) : F64 :=
  fdiv (c.total_c : ℚ) (c.get_coverage : ℚ)

/-- `LevelsCounter::get_fractional_meth` (lines 126–128). -/
def LevelsCounter.get_fractional_meth (c : LevelsCounter) : F64 :=
  fdiv (c.called_meth : ℚ) (c.get_total_called : ℚ)

/-- `LevelsCounter::get_mean_meth` (lines 129–131). -/
def LevelsCounter.get_mean_meth (c : LevelsCounter) : F64 :=
  fdiv c.mean_agg (c.sites_covered : ℚ)

/-- `LevelsCounter::set_derived_values` from src/src/lib.rs lines 135–158,
assignment by assignment: the first four divisions are unguarded, the
`mean_meth` / `mean_meth_weighted` pair is guarded by `sites_covered != 0`,
and `fractional_meth` is guarded by `get_total_called() > 0`. -/
def LevelsCounter.set_derived_values (c : LevelsCounter) : LevelsCounter :=
  let c := { c with coverage := c.get_coverage }
  let c := { c with
    sites_covered_fraction := fdiv (c.sites_covered : ℚ) (c.total_sites : ℚ) }
  let c := { c with mean_depth := fdiv (c.coverage : ℚ) (c.total_sites : ℚ) }
  let c := { c with
    mean_depth_covered := fdiv (c.coverage : ℚ) (c.sites_covered : ℚ) }
  let c :=
    if c.sites_covered ≠ 0 then
      { c with mean_meth := c.get_mean_meth,
               mean_meth_weighted := c.get_mean_meth_weighted }
    else
      { c with mean_meth := F64.fin 0, mean_meth_weighted := F64.fin 0 }
  if 0 < c.get_total_called then
    { c with fractional_meth := c.get_fractional_meth }
  else
    { c with fractional_meth := F64.fin 0 }

/-! ## The aggregation driver (src/src/lib.rs lines 182–261) -/

/-- `struct LC` (lines 172–180): the six parallel counters. -/
structure LC where
  cytosine : LevelsCounter
  cpg : LevelsCounter
  cpg_symmetric : LevelsCounter
  chh : LevelsCounter
  ccg : LevelsCounter
  cxg : LevelsCounter
deriving DecidableEq

/-- `Default::default()` for `LC`. -/
def LC.default : LC :=
  { cytosine := LevelsCounter.default, cpg := LevelsCounter.default,
    cpg_symmetric := LevelsCounter.default, chh := LevelsCounter.default,
    ccg := LevelsCounter.default, cxg := LevelsCounter.default }

/-- The driver's loop state: the counters plus the mate-pairing state
(`prev_site`, `prev_is_cpg` of lines 204–205). -/
structure DriverState where
  lc : LC
  prev_site : MSite
  prev_is_cpg : Bool
deriving DecidableEq

/-- The driver state before the first record: default counters, `MSite::new()`
as the previous site, `prev_is_cpg = false`. -/
def initState : DriverState :=
  { lc := LC.default, prev_site := MSite.new, prev_is_cpg := false }

/-- The two data-dependent fatal exits of the loop body:
`process::exit(1)` after "failed parsing site" (line 215) and after
"bad site type" (line 247). -/
inductive RunError where
  | parse_failure : RunError
  | bad_site_type : RunError
deriving DecidableEq

/-- One iteration of the loop of `run_mlevels` (lines 208–251).  The input is
`none` when `MSite::build` fails on the line.  The body mirrors the source:
unconditional `cytosine.update`; CpG branch with the mate-pairing logic
(merge via `prev_site.add(&site)` feeding `cpg_symmetric.update`); the
CHH / CCG / CXG branches; the fatal `bad site type` exit; and finally
`prev_site = site` — executed on every successful iteration. -/
def processLine (ci : ℕ → ℚ → ℚ × ℚ) (st : DriverState) (inp : Option MSite) :
    Except RunError DriverState :=
  match inp with
  | none => Except.error RunError.parse_failure
  | some site =>
    let lc := st.lc
    let lc := { lc with cytosine := lc.cytosine.update ci site }
    if site.is_cpg then
      let lc := { lc with cpg := lc.cpg.update ci site }
      if st.prev_is_cpg && st.prev_site.is_mate_of site then
        let merged := st.prev_site.add site
        let lc := { lc with cpg_symmetric := lc.cpg_symmetric.update ci merged }
        Except.ok { lc := lc, prev_site := site, prev_is_cpg := false }
      else
        Except.ok { lc := lc, prev_site := site, prev_is_cpg := true }
    else if site.is_chh then
      Except.ok { lc := { lc with chh := lc.chh.update ci site },
                  prev_site := site, prev_is_cpg := st.prev_is_cpg }
    else if site.is_ccg then
      Except.ok { lc := { lc with ccg := lc.ccg.update ci site },
                  prev_site := site, prev_is_cpg := st.prev_is_cpg }
    else if site.is_cxg then
      Except.ok { lc := { lc with cxg := lc.cxg.update ci site },
                  prev_site := site, prev_is_cpg := st.prev_is_cpg }
    else
      Except.error RunError.bad_site_type

/-- The whole input loop: fold `processLine` over the lines, stopping at the
first fatal error. -/
def processAll (ci : ℕ → ℚ → ℚ × ℚ) (st : DriverState) :
    List (Option MSite) → Except RunError DriverState
  | [] => Except.ok st
  | inp :: rest =>
    match processLine ci st inp with
    | Except.error e => Except.error e
    | Except.ok st2 => processAll ci st2 rest

/-- The end-of-stream finalization (lines 253–258): `set_derived_values` on
all six counters. -/
def LC.finalize (lc : LC) : LC :=
  { cytosine := lc.cytosine.set_derived_values,
    cpg := lc.cpg.set_derived_values,
    cpg_symmetric := lc.cpg_symmetric.set_derived_values,
    chh := lc.chh.set_derived_values,
    ccg := lc.ccg.set_derived_values,
    cxg := lc.cxg.set_derived_values }

/-- `run_mlevels` (lines 182–261) on an already-read list of input lines:
process every line, then finalize and emit the report (the serialized `LC`).
A fatal `process::exit(1)` is the `Except.error` case — no report value is
produced. -/
def run_mlevels (ci : ℕ → ℚ → ℚ × ℚ) (inputs : List (Option MSite)) :
    Except RunError LC :=
  match processAll ci initState inputs with
  | Except.error e => Except.error e
  | Except.ok st => Except.ok st.lc.finalize

/-- A counter obtained from the empty counter by a sequence of `update`
calls. -/
def counter_after (ci : ℕ → ℚ → ℚ × ℚ) (l : List MSite) : LevelsCounter :=
  l.foldl (LevelsCounter.update ci) LevelsCounter.default

/-! ## Wilson interval lemmas -/

/-- The source's clamp-below `if *lower < 0.0 { *lower = 0.0 }` is the
spec's `max` with 0. -/
lemma if_lt_zero_eq_max (a : ℝ) : (if a < 0 then (0 : ℝ) else a) = max a 0 := by
  rcases le_or_lt 0 a with h | h
  · rw [if_neg (not_lt.mpr h), max_eq_left h]
  · rw [if_pos h, max_eq_right h.le]

/-- The source's clamp-above `if *upper > 1.0 { *upper = 1.0 }` is the
spec's `min` with 1. -/
lemma if_gt_one_eq_min (a : ℝ) : (if a > 1 then (1 : ℝ) else a) = min a 1 := by
  rcases le_or_lt a 1 with h | h
  · rw [if_neg (not_lt.mpr h), min_eq_left h]
  · rw [if_pos h, min_eq_right h.le]

lemma wilson_denom_pos (z : ℝ) (n : ℕ) : (0 : ℝ) < 1 + z * z / (n : ℝ) := by
  have h1 : (0 : ℝ) ≤ z * z / (n : ℝ) :=
    div_nonneg (mul_self_nonneg z) (Nat.cast_nonneg n)
  linarith

lemma wilson_second_term_nonneg (z : ℝ) (n : ℕ) (p : ℝ) (hz : 0 ≤ z) :
    0 ≤ wilson_second_term z n p := by
  unfold wilson_second_term
  exact div_nonneg (mul_nonneg hz (Real.sqrt_nonneg _)) (wilson_denom_pos z n).le

lemma wilson_first_term_nonneg (z : ℝ) (n : ℕ) (p : ℝ) (hp : 0 ≤ p) :
    0 ≤ wilson_first_term z n p := by
  unfold wilson_first_term
  have h1 : (0 : ℝ) ≤ z * z / (2 * (n : ℝ)) :=
    div_nonneg (mul_self_nonneg z) (by positivity)
  exact div_nonneg (add_nonneg hp h1) (wilson_denom_pos z n).le

lemma wilson_first_term_le_one (z : ℝ) (n : ℕ) (p : ℝ) (hn : 1 ≤ n) (hp : p ≤ 1) :
    wilson_first_term z n p ≤ 1 := by
  unfold wilson_first_term
  have hnpos : (0 : ℝ) < (n : ℝ) := by
    have h : (1 : ℝ) ≤ (n : ℝ) := by exact_mod_cast hn
    linarith
  rw [div_le_one (wilson_denom_pos z n)]
  have h2 : z * z / (2 * (n : ℝ)) ≤ z * z / (n : ℝ) := by
    rw [div_le_div_iff (by linarith) hnpos]
    nlinarith [mul_self_nonneg z]
  linarith

lemma wilson_pair_bounds (z : ℝ) (n : ℕ) (p : ℝ) (hz : 0 ≤ z) (hn : 1 ≤ n)
    (hp0 : 0 ≤ p) (hp1 : p ≤ 1) :
    0 ≤ (wilson_pair z n p).1 ∧ (wilson_pair z n p).1 ≤ (wilson_pair z n p).2 ∧
      (wilson_pair z n p).2 ≤ 1 := by
  have hst := wilson_second_term_nonneg z n p hz
  have hft0 := wilson_first_term_nonneg z n p hp0
  have hft1 := wilson_first_term_le_one z n p hn hp1
  unfold wilson_pair
  dsimp only
  rw [if_lt_zero_eq_max, if_gt_one_eq_min]
  refine ⟨le_max_right _ 0, ?_, min_le_right _ 1⟩
  apply le_min
  · apply max_le
    · linarith
    · linarith
  · apply max_le
    · linarith
    · norm_num

lemma wilson_reference (z : ℝ) (h1 : 1.9599 ≤ z) (h2 : z ≤ 1.96) :
    |(wilson_pair z 100 (1 / 2)).1 - 0.404| ≤ 1 / 1000 ∧
      |(wilson_pair z 100 (1 / 2)).2 - 0.596| ≤ 1 / 1000 := by
  have hz : (0 : ℝ) ≤ z := by linarith
  have hzz1 : (3.8412 : ℝ) ≤ z * z := by nlinarith
  have hzz2 : z * z ≤ (3.8416 : ℝ) := by nlinarith
  have hden : (0 : ℝ) < 1 + z * z / 100 := by positivity
  have hft : wilson_first_term z 100 (1 / 2) = 1 / 2 := by
    unfold wilson_first_term
    push_cast
    field_simp
    ring
  have hst_eq : wilson_second_term z 100 (1 / 2)
      = z * Real.sqrt (1 / 400 + z * z / 40000) / (1 + z * z / 100) := by
    unfold wilson_second_term
    push_cast
    rw [show (1 / 2 : ℝ) * (1 - 1 / 2) / 100 + z * z / (4 * 100 * 100)
          = 1 / 400 + z * z / 40000 from by ring]
  have hs_ub : Real.sqrt (1 / 400 + z * z / 40000) ≤ 0.051 := by
    have h := Real.sqrt_le_sqrt (show (1 / 400 + z * z / 40000 : ℝ) ≤ (0.051 : ℝ) ^ 2 by
      nlinarith)
    rwa [Real.sqrt_sq (by norm_num)] at h
  have hs_lb : (0.0509 : ℝ) ≤ Real.sqrt (1 / 400 + z * z / 40000) := by
    have h := Real.sqrt_le_sqrt (show ((0.0509 : ℝ) ^ 2 : ℝ) ≤ 1 / 400 + z * z / 40000 by
      nlinarith)
    rwa [Real.sqrt_sq (by norm_num)] at h
  have hst_ub : wilson_second_term z 100 (1 / 2) ≤ 0.097 := by
    rw [hst_eq, div_le_iff hden]
    have hm : z * Real.sqrt (1 / 400 + z * z / 40000) ≤ 1.96 * 0.051 :=
      mul_le_mul h2 hs_ub (Real.sqrt_nonneg _) (by norm_num)
    nlinarith
  have hst_lb : (0.095 : ℝ) ≤ wilson_second_term z 100 (1 / 2) := by
    rw [hst_eq, le_div_iff hden]
    have hm : (1.9599 : ℝ) * 0.0509 ≤ z * Real.sqrt (1 / 400 + z * z / 40000) :=
      mul_le_mul h1 hs_lb (by norm_num) hz
    nlinarith
  unfold wilson_pair
  dsimp only
  rw [hft]
  rw [if_neg (not_lt.mpr (by linarith)), if_neg (not_lt.mpr (by linarith))]
  constructor
  · rw [abs_le]
    constructor <;> linarith
  · rw [abs_le]
    constructor <;> linarith

/-- C1: the confidence-interval routine implements the Wilson score formula
exactly as the spec states it — same quantile argument `1 - alpha/2` to the
standard-normal inverse CDF, `denom = 1 + z²/n`,
`center = (p_hat + z²/(2n))/denom`,
`spread = z·sqrt(p_hat(1−p_hat)/n + z²/(4n²))/denom`, lower bound
`center − spread` clamped up to 0 and upper bound `center + spread` clamped
down to 1, for every `alpha ∈ (0,1)`, `n ≥ 1` and `p_hat ∈ [0,1]`. -/
theorem wilson_ci_matches_spec_formula (phi_inv : ℝ → ℝ) (alpha : ℝ) (n : ℕ)
    (p_hat : ℝ) (hn : 1 ≤ n) (ha0 : 0 < alpha) (ha1 : alpha < 1)
    (hp0 : 0 ≤ p_hat) (hp1 : p_hat ≤ 1) :
    wilson_ci_for_binomial phi_inv alpha n p_hat
      = wilson_interval_spec phi_inv alpha n p_hat := by
  simp only [wilson_ci_for_binomial, wilson_interval_spec, wilson_pair,
    wilson_first_term, wilson_second_term]
  rw [if_lt_zero_eq_max, if_gt_one_eq_min]
  rw [show p_hat * (1 - p_hat) / (n : ℝ)
        + phi_inv (1 - alpha / 2) * phi_inv (1 - alpha / 2) / (4 * (n : ℝ) * (n : ℝ))
      = p_hat * (1 - p_hat) / (n : ℝ) + phi_inv (1 - alpha / 2) ^ 2 / (4 * (n : ℝ) ^ 2)
    from by ring]
  simp only [Prod.mk.injEq]
  constructor
  · congr 1
    ring
  · congr 1
    ring

/-- Witness for C1 at `phi_inv = id`, `alpha = 1/2`, `n = 1`, `p_hat = 0`. -/
theorem wilson_ci_matches_spec_formula_witness :
    wilson_ci_for_binomial id (1 / 2) 1 0 = wilson_interval_spec id (1 / 2) 1 0 :=
  wilson_ci_matches_spec_formula id (1 / 2) 1 0 (le_refl 1) (by norm_num)
    (by norm_num) (le_refl 0) (by norm_num)

/-- C2: for every `alpha ∈ (0,1)`, `n ≥ 1` and `p_hat ∈ [0,1]` the Wilson
routine returns `0 ≤ lower ≤ upper ≤ 1` (the quantile `z` at a probability
above 1/2 being nonnegative), and at `alpha = 0.05`, `n = 100`,
`p_hat = 0.5` — with the standard-normal quantile `z_{0.975} ∈ [1.9599, 1.96]`
— the bounds are within `1/1000` of 0.404 and 0.596. -/
theorem wilson_ci_bounds_and_reference :
    (∀ (phi_inv : ℝ → ℝ) (alpha : ℝ) (n : ℕ) (p_hat : ℝ),
        0 < alpha → alpha < 1 → 1 ≤ n → 0 ≤ p_hat → p_hat ≤ 1 →
        0 ≤ phi_inv (1 - alpha / 2) →
        0 ≤ (wilson_ci_for_binomial phi_inv alpha n p_hat).1 ∧
        (wilson_ci_for_binomial phi_inv alpha n p_hat).1
          ≤ (wilson_ci_for_binomial phi_inv alpha n p_hat).2 ∧
        (wilson_ci_for_binomial phi_inv alpha n p_hat).2 ≤ 1) ∧
    (∀ phi_inv : ℝ → ℝ,
        1.9599 ≤ phi_inv (1 - 0.05 / 2) → phi_inv (1 - 0.05 / 2) ≤ 1.96 →
        |(wilson_ci_for_binomial phi_inv 0.05 100 (1 / 2)).1 - 0.404| ≤ 1 / 1000 ∧
        |(wilson_ci_for_binomial phi_inv 0.05 100 (1 / 2)).2 - 0.596| ≤ 1 / 1000) := by
  constructor
  · intro phi_inv alpha n p_hat ha0 ha1 hn hp0 hp1 hz
    exact wilson_pair_bounds (phi_inv (1 - alpha / 2)) n p_hat hz hn hp0 hp1
  · intro phi_inv h1 h2
    exact wilson_reference (phi_inv (1 - 0.05 / 2)) h1 h2

/-- Witness for C2: the bounds part at a concrete quantile function and
input, the reference part at the constant quantile 1.9599. -/
theorem wilson_ci_bounds_and_reference_witness :
    (0 ≤ (wilson_ci_for_binomial (fun _ => 2) (1 / 2) 10 (1 / 2)).1 ∧
      (wilson_ci_for_binomial (fun _ => 2) (1 / 2) 10 (1 / 2)).1
        ≤ (wilson_ci_for_binomial (fun _ => 2) (1 / 2) 10 (1 / 2)).2 ∧
      (wilson_ci_for_binomial (fun _ => 2) (1 / 2) 10 (1 / 2)).2 ≤ 1) ∧
    (|(wilson_ci_for_binomial (fun _ => 1.9599) 0.05 100 (1 / 2)).1 - 0.404| ≤ 1 / 1000 ∧
      |(wilson_ci_for_binomial (fun _ => 1.9599) 0.05 100 (1 / 2)).2 - 0.596| ≤ 1 / 1000) :=
  ⟨wilson_ci_bounds_and_reference.1 (fun _ => 2) (1 / 2) 10 (1 / 2) (by norm_num)
      (by norm_num) (by norm_num) (by norm_num) (by norm_num) (by norm_num),
    wilson_ci_bounds_and_reference.2 (fun _ => 1.9599) (by norm_num) (by norm_num)⟩

/-! ## LevelsCounter update lemmas -/

/-- A concrete stand-in interval routine used by witnesses and
counterexamples: every call returns the full interval `(0, 1)`, whose bounds
satisfy `lower ≤ upper`. -/
def ciStub : ℕ → ℚ → ℚ × ℚ := fun _ _ => (0, 1)

/-- A non-mutated CHH site with no reads. -/
def site_uncovered : MSite :=
  { chrom := 1, pos := 10, fwd_strand := true, ctx := Ctx.chh, mutated := false,
    n_reads := 0, meth := 0 }

lemma update_total_sites (ci : ℕ → ℚ → ℚ × ℚ) (c : LevelsCounter) (s : MSite) :
    (c.update ci s).total_sites = c.total_sites + 1 := by
  simp [LevelsCounter.update, apply_ite LevelsCounter.total_sites]

lemma update_cov_mut (ci : ℕ → ℚ → ℚ × ℚ) (c : LevelsCounter) (s : MSite) :
    (c.update ci s).sites_covered + (c.update ci s).mutations
      = c.sites_covered + c.mutations
        + (if (!s.is_mutated && s.n_reads == 0) = true then 0 else 1) := by
  cases hm : s.mutated with
  | true =>
    simp [LevelsCounter.update, MSite.is_mutated, hm,
      apply_ite LevelsCounter.sites_covered, apply_ite LevelsCounter.mutations]
    omega
  | false =>
    by_cases hr : 0 < s.n_reads
    · have hne : (s.n_reads == 0) = false := by
        simp only [beq_eq_false_iff_ne]
        omega
      simp [LevelsCounter.update, MSite.is_mutated, hm, hr, hne,
        apply_ite LevelsCounter.sites_covered, apply_ite LevelsCounter.mutations]
      omega
    · have hz : (s.n_reads == 0) = true := by
        simp only [beq_iff_eq]
        omega
      simp [LevelsCounter.update, MSite.is_mutated, hm, hr, hz,
        apply_ite LevelsCounter.sites_covered, apply_ite LevelsCounter.mutations]

/-- C3 (counterexample): starting from the empty counter, a single `update`
with a non-mutated zero-read site breaks the claimed invariant
`total_sites = sites_covered + mutations` (it yields `1 = 0 + 0`). -/
theorem total_sites_invariant_cex :
    ¬ ((LevelsCounter.default.update ciStub site_uncovered).total_sites
        = (LevelsCounter.default.update ciStub site_uncovered).sites_covered
          + (LevelsCounter.default.update ciStub site_uncovered).mutations) := by
  decide

lemma foldl_decomposition_aux (ci : ℕ → ℚ → ℚ × ℚ) (l : List MSite)
    (c : LevelsCounter) :
    (l.foldl (LevelsCounter.update ci) c).total_sites + c.sites_covered + c.mutations
      = (l.foldl (LevelsCounter.update ci) c).sites_covered
        + (l.foldl (LevelsCounter.update ci) c).mutations
        + c.total_sites + l.countP (fun s => !s.is_mutated && s.n_reads == 0) := by
  induction l generalizing c with
  | nil =>
    simp only [List.foldl_nil, List.countP_nil]
    omega
  | cons a l ih =>
    have h1 := update_total_sites ci c a
    have h2 := update_cov_mut ci c a
    have h3 := ih (c.update ci a)
    simp only [List.foldl_cons, List.countP_cons] at h3 ⊢
    by_cases hp : (!a.is_mutated && a.n_reads == 0) = true
    · simp [hp] at h2 ⊢
      omega
    · simp [hp] at h2 ⊢
      omega

/-- C3 (amended): after any sequence of `update` calls from the empty
counter, `total_sites = sites_covered + mutations + u`, where `u` is the
number of processed sites that are neither mutated nor covered (non-mutated
with `n_reads = 0`); the claimed invariant
`total_sites = sites_covered + mutations` therefore holds exactly when no
such site occurs, but not for every possible input site. -/
theorem total_sites_decomposition (ci : ℕ → ℚ → ℚ × ℚ) (l : List MSite) :
    (counter_after ci l).total_sites
      = (counter_after ci l).sites_covered + (counter_after ci l).mutations
        + l.countP (fun s => !s.is_mutated && s.n_reads == 0) := by
  have h := foldl_decomposition_aux ci l LevelsCounter.default
  simp only [LevelsCounter.default] at h
  simp only [counter_after, LevelsCounter.default]
  omega

/-- C7: for a non-mutated site with `n_reads = 0`, `update` increments
`total_sites` by 1 and leaves every other field of the counter unchanged. -/
theorem uncovered_update_frame (ci : ℕ → ℚ → ℚ × ℚ) (c : LevelsCounter)
    (s : MSite) (hm : s.is_mutated = false) (hr : s.n_reads = 0) :
    c.update ci s = { c with total_sites := c.total_sites + 1 } := by
  simp [LevelsCounter.update, hm, hr]

/-- Witness for C7 at the empty counter and a concrete uncovered site. -/
theorem uncovered_update_frame_witness :
    LevelsCounter.default.update ciStub site_uncovered
      = { LevelsCounter.default with
          total_sites := LevelsCounter.default.total_sites + 1 } :=
  uncovered_update_frame ciStub LevelsCounter.default site_uncovered rfl rfl

lemma update_sites_covered (ci : ℕ → ℚ → ℚ × ℚ) (c : LevelsCounter) (s : MSite) :
    (c.update ci s).sites_covered
      = if s.mutated = false ∧ 0 < s.n_reads then c.sites_covered + 1
        else c.sites_covered := by
  cases hm : s.mutated with
  | true =>
    simp [LevelsCounter.update, MSite.is_mutated, hm,
      apply_ite LevelsCounter.sites_covered]
  | false =>
    by_cases hr : 0 < s.n_reads
    · simp [LevelsCounter.update, MSite.is_mutated, hm, hr,
        apply_ite LevelsCounter.sites_covered]
    · simp [LevelsCounter.update, MSite.is_mutated, hm, hr,
        apply_ite LevelsCounter.sites_covered]

lemma update_total_c (ci : ℕ → ℚ → ℚ × ℚ) (c : LevelsCounter) (s : MSite) :
    (c.update ci s).total_c
      = if s.mutated = false ∧ 0 < s.n_reads then c.total_c + s.n_meth
        else c.total_c := by
  cases hm : s.mutated with
  | true =>
    simp [LevelsCounter.update, MSite.is_mutated, hm, apply_ite LevelsCounter.total_c]
  | false =>
    by_cases hr : 0 < s.n_reads
    · simp [LevelsCounter.update, MSite.is_mutated, hm, hr,
        apply_ite LevelsCounter.total_c]
    · simp [LevelsCounter.update, MSite.is_mutated, hm, hr,
        apply_ite LevelsCounter.total_c]

lemma update_total_t (ci : ℕ → ℚ → ℚ × ℚ) (c : LevelsCounter) (s : MSite) :
    (c.update ci s).total_t
      = if s.mutated = false ∧ 0 < s.n_reads then c.total_t + (s.n_reads - s.n_meth)
        else c.total_t := by
  cases hm : s.mutated with
  | true =>
    simp [LevelsCounter.update, MSite.is_mutated, hm, apply_ite LevelsCounter.total_t]
  | false =>
    by_cases hr : 0 < s.n_reads
    · simp [LevelsCounter.update, MSite.is_mutated, hm, hr,
        apply_ite LevelsCounter.total_t]
    · simp [LevelsCounter.update, MSite.is_mutated, hm, hr,
        apply_ite LevelsCounter.total_t]

lemma update_called_meth (ci : ℕ → ℚ → ℚ × ℚ) (c : LevelsCounter) (s : MSite) :
    (c.update ci s).called_meth
      = if s.mutated = false ∧ 0 < s.n_reads ∧ 1 / 2 < (ci s.n_reads s.meth).1
        then c.called_meth + 1 else c.called_meth := by
  cases hm : s.mutated with
  | true =>
    simp [LevelsCounter.update, MSite.is_mutated, hm,
      apply_ite LevelsCounter.called_meth]
  | false =>
    by_cases hr : 0 < s.n_reads
    · by_cases hl : 1 / 2 < (ci s.n_reads s.meth).1
      · simp [LevelsCounter.update, MSite.is_mutated, hm, hr, hl,
          apply_ite LevelsCounter.called_meth]
      · simp [LevelsCounter.update, MSite.is_mutated, hm, hr, hl,
          apply_ite LevelsCounter.called_meth]
    · simp [LevelsCounter.update, MSite.is_mutated, hm, hr,
        apply_ite LevelsCounter.called_meth]

lemma update_called_unmeth (ci : ℕ → ℚ → ℚ × ℚ) (c : LevelsCounter) (s : MSite) :
    (c.update ci s).called_unmeth
      = if s.mutated = false ∧ 0 < s.n_reads ∧ (ci s.n_reads s.meth).2 < 1 / 2
        then c.called_unmeth + 1 else c.called_unmeth := by
  cases hm : s.mutated with
  | true =>
    simp [LevelsCounter.update, MSite.is_mutated, hm,
      apply_ite LevelsCounter.called_unmeth]
  | false =>
    by_cases hr : 0 < s.n_reads
    · by_cases hu : (ci s.n_reads s.meth).2 < 1 / 2
      · simp [LevelsCounter.update, MSite.is_mutated, hm, hr, hu,
          apply_ite LevelsCounter.called_unmeth]
      · simp [LevelsCounter.update, MSite.is_mutated, hm, hr, hu,
          apply_ite LevelsCounter.called_unmeth]
    · simp [LevelsCounter.update, MSite.is_mutated, hm, hr,
        apply_ite LevelsCounter.called_unmeth]

/-- The real-valued Wilson interval cannot have its lower bound above 1/2 and
its upper bound below 1/2 at the same time (for a nonnegative quantile). -/
lemma wilson_pair_not_both (z : ℝ) (n : ℕ) (p : ℝ) (hz : 0 ≤ z) :
    ¬(1 / 2 < (wilson_pair z n p).1 ∧ (wilson_pair z n p).2 < 1 / 2) := by
  have hst := wilson_second_term_nonneg z n p hz
  unfold wilson_pair
  dsimp only
  rintro ⟨h1, h2⟩
  rcases lt_or_ge (wilson_first_term z n p - wilson_second_term z n p) 0 with hc | hc
  · rw [if_pos hc] at h1
    linarith
  · rw [if_neg (not_lt.mpr hc)] at h1
    rcases le_or_lt (wilson_first_term z n p + wilson_second_term z n p) 1 with hd | hd
    · rw [if_neg (not_lt.mpr hd)] at h2
      linarith
    · rw [if_pos hd] at h2
      linarith

lemma foldl_called_le (ci : ℕ → ℚ → ℚ × ℚ)
    (hci : ∀ n p, (ci n p).1 ≤ (ci n p).2) (l : List MSite) (c : LevelsCounter)
    (hc : c.called_meth + c.called_unmeth ≤ c.sites_covered) :
    (l.foldl (LevelsCounter.update ci) c).called_meth
        + (l.foldl (LevelsCounter.update ci) c).called_unmeth
      ≤ (l.foldl (LevelsCounter.update ci) c).sites_covered := by
  induction l generalizing c with
  | nil => simpa using hc
  | cons a l ih =>
    simp only [List.foldl_cons]
    apply ih
    rw [update_called_meth, update_called_unmeth, update_sites_covered]
    by_cases hm : a.mutated = false
    · by_cases hr : 0 < a.n_reads
      · by_cases hl : 1 / 2 < (ci a.n_reads a.meth).1
        · have hu : ¬((ci a.n_reads a.meth).2 < 1 / 2) :=
            not_lt.mpr (by linarith [hci a.n_reads a.meth])
          rw [if_pos ⟨hm, hr, hl⟩, if_neg (by tauto), if_pos ⟨hm, hr⟩]
          omega
        · rw [if_neg (by tauto)]
          by_cases hu : (ci a.n_reads a.meth).2 < 1 / 2
          · rw [if_pos ⟨hm, hr, hu⟩, if_pos ⟨hm, hr⟩]
            omega
          · rw [if_neg (by tauto), if_pos ⟨hm, hr⟩]
            omega
      · rw [if_neg (by tauto), if_neg (by tauto), if_neg (by tauto)]
        omega
    · rw [if_neg (by tauto), if_neg (by tauto), if_neg (by tauto)]
      omega

/-- C4: provided the interval routine returns `lower ≤ upper` — which the
Wilson formula does (first conjunct: the real-valued interval can never have
`lower > 1/2` and `upper < 1/2` at once) — a single `update` never increments
both `called_meth` and `called_unmeth` (second conjunct), and after any
sequence of `update` calls from the empty counter,
`called_meth + called_unmeth ≤ sites_covered` (third conjunct). -/
theorem called_counts_bounded (ci : ℕ → ℚ → ℚ × ℚ)
    (hci : ∀ n p, (ci n p).1 ≤ (ci n p).2) :
    (∀ (phi_inv : ℝ → ℝ) (alpha : ℝ) (n : ℕ) (p_hat : ℝ),
        0 ≤ phi_inv (1 - alpha / 2) →
        ¬(1 / 2 < (wilson_ci_for_binomial phi_inv alpha n p_hat).1 ∧
          (wilson_ci_for_binomial phi_inv alpha n p_hat).2 < 1 / 2)) ∧
    (∀ (c : LevelsCounter) (s : MSite),
        ¬((c.update ci s).called_meth = c.called_meth + 1 ∧
          (c.update ci s).called_unmeth = c.called_unmeth + 1)) ∧
    (∀ l : List MSite,
        (counter_after ci l).called_meth + (counter_after ci l).called_unmeth
          ≤ (counter_after ci l).sites_covered) := by
  refine ⟨?_, ?_, ?_⟩
  · intro phi_inv alpha n p_hat hz
    exact wilson_pair_not_both (phi_inv (1 - alpha / 2)) n p_hat hz
  · intro c s
    rintro ⟨h1, h2⟩
    rw [update_called_meth] at h1
    rw [update_called_unmeth] at h2
    have hA : s.mutated = false ∧ 0 < s.n_reads ∧ 1 / 2 < (ci s.n_reads s.meth).1 := by
      by_contra hA
      rw [if_neg hA] at h1
      omega
    have hB : s.mutated = false ∧ 0 < s.n_reads ∧ (ci s.n_reads s.meth).2 < 1 / 2 := by
      by_contra hB
      rw [if_neg hB] at h2
      omega
    have hle := hci s.n_reads s.meth
    linarith [hA.2.2, hB.2.2]
  · intro l
    exact foldl_called_le ci hci l LevelsCounter.default (by simp [LevelsCounter.default])

/-- Witness for C4 with the stub interval routine and concrete inputs. -/
theorem called_counts_bounded_witness :
    (¬(1 / 2 < (wilson_ci_for_binomial (fun _ => 2) (1 / 2) 1 0).1 ∧
        (wilson_ci_for_binomial (fun _ => 2) (1 / 2) 1 0).2 < 1 / 2)) ∧
    (¬((LevelsCounter.default.update ciStub site_uncovered).called_meth
          = LevelsCounter.default.called_meth + 1 ∧
        (LevelsCounter.default.update ciStub site_uncovered).called_unmeth
          = LevelsCounter.default.called_unmeth + 1)) ∧
    ((counter_after ciStub [site_uncovered]).called_meth
        + (counter_after ciStub [site_uncovered]).called_unmeth
      ≤ (counter_after ciStub [site_uncovered]).sites_covered) := by
  have hci : ∀ n p, (ciStub n p).1 ≤ (ciStub n p).2 := by
    intro n p
    norm_num [ciStub]
  exact ⟨(called_counts_bounded ciStub hci).1 (fun _ => 2) (1 / 2) 1 0 (by norm_num),
    (called_counts_bounded ciStub hci).2.1 LevelsCounter.default site_uncovered,
    (called_counts_bounded ciStub hci).2.2 [site_uncovered]⟩

lemma foldl_total_sites (ci : ℕ → ℚ → ℚ × ℚ) (l : List MSite) (c : LevelsCounter) :
    (l.foldl (LevelsCounter.update ci) c).total_sites = c.total_sites + l.length := by
  induction l generalizing c with
  | nil => simp
  | cons a l ih =>
    simp only [List.foldl_cons, List.length_cons, ih, update_total_sites]
    omega

lemma foldl_zero_coverage (ci : ℕ → ℚ → ℚ × ℚ) (l : List MSite) (c : LevelsCounter)
    (hinv : c.sites_covered = 0 → c.total_c = 0 ∧ c.total_t = 0) :
    (l.foldl (LevelsCounter.update ci) c).sites_covered = 0 →
      (l.foldl (LevelsCounter.update ci) c).total_c = 0 ∧
      (l.foldl (LevelsCounter.update ci) c).total_t = 0 := by
  induction l generalizing c with
  | nil => simpa using hinv
  | cons a l ih =>
    simp only [List.foldl_cons]
    apply ih
    intro h0
    rw [update_sites_covered] at h0
    rw [update_total_c, update_total_t]
    by_cases hca : a.mutated = false ∧ 0 < a.n_reads
    · rw [if_pos hca] at h0
      omega
    · rw [if_neg hca] at h0
      rw [if_neg hca, if_neg hca]
      exact hinv h0

/-- C10: the first divisions of `set_derived_values` are unguarded: a counter
reached from the empty counter with `sites_covered = 0` (its coverage is then
necessarily 0) gets `mean_depth_covered = 0/0 = NaN`, and one with
`total_sites = 0` also gets `sites_covered_fraction = NaN` and
`mean_depth = NaN`. -/
theorem unguarded_division_nan (ci : ℕ → ℚ → ℚ × ℚ) (l : List MSite) :
    ((counter_after ci l).sites_covered = 0 →
      (counter_after ci l).set_derived_values.mean_depth_covered = F64.nan) ∧
    ((counter_after ci l).total_sites = 0 →
      (counter_after ci l).set_derived_values.sites_covered_fraction = F64.nan ∧
      (counter_after ci l).set_derived_values.mean_depth = F64.nan) := by
  constructor
  · intro h0
    have hcov := foldl_zero_coverage ci l LevelsCounter.default
      (by intro _; simp [LevelsCounter.default]) h0
    simp only [counter_after] at h0 hcov
    simp [counter_after, LevelsCounter.set_derived_values, LevelsCounter.get_coverage,
      h0, hcov.1, hcov.2, fdiv,
      apply_ite LevelsCounter.mean_depth_covered]
  · intro h0
    have hlen := foldl_total_sites ci l LevelsCounter.default
    simp only [counter_after] at h0
    rw [h0] at hlen
    have hl : l = [] := List.length_eq_zero.mp (by
      simp [LevelsCounter.default] at hlen
      omega)
    subst hl
    simp [counter_after, LevelsCounter.set_derived_values, LevelsCounter.default,
      LevelsCounter.get_coverage, LevelsCounter.get_total_called, fdiv,
      apply_ite LevelsCounter.sites_covered_fraction, apply_ite LevelsCounter.mean_depth]

/-- Witness for C10 at the empty update sequence. -/
theorem unguarded_division_nan_witness :
    (counter_after ciStub []).set_derived_values.mean_depth_covered = F64.nan ∧
    ((counter_after ciStub []).set_derived_values.sites_covered_fraction = F64.nan ∧
      (counter_after ciStub []).set_derived_values.mean_depth = F64.nan) :=
  ⟨(unguarded_division_nan ciStub []).1 rfl,
    (unguarded_division_nan ciStub []).2 rfl⟩

/-- C8: `set_derived_values` guards its zero-denominator cases: with
`sites_covered = 0` it writes `mean_meth = 0` and `mean_meth_weighted = 0`,
and with `called_meth = called_unmeth = 0` it writes `fractional_meth = 0`. -/
theorem derived_value_guards (c : LevelsCounter) :
    (c.sites_covered = 0 →
      c.set_derived_values.mean_meth = F64.fin 0 ∧
      c.set_derived_values.mean_meth_weighted = F64.fin 0) ∧
    (c.called_meth = 0 → c.called_unmeth = 0 →
      c.set_derived_values.fractional_meth = F64.fin 0) := by
  constructor
  · intro h
    simp [LevelsCounter.set_derived_values, h,
      apply_ite LevelsCounter.mean_meth, apply_ite LevelsCounter.mean_meth_weighted]
  · intro h1 h2
    simp [LevelsCounter.set_derived_values, LevelsCounter.get_total_called, h1, h2,
      apply_ite LevelsCounter.called_meth, apply_ite LevelsCounter.called_unmeth]

/-- Witness for C8 at the empty counter. -/
theorem derived_value_guards_witness :
    (LevelsCounter.default.set_derived_values.mean_meth = F64.fin 0 ∧
      LevelsCounter.default.set_derived_values.mean_meth_weighted = F64.fin 0) ∧
    LevelsCounter.default.set_derived_values.fractional_meth = F64.fin 0 :=
  ⟨(derived_value_guards LevelsCounter.default).1 rfl,
    (derived_value_guards LevelsCounter.default).2 rfl rfl⟩

/-! ## Driver theorems: mate pairing and fatal errors -/

/-- A forward-strand CpG site. -/
def siteA : MSite :=
  { chrom := 1, pos := 10, fwd_strand := true, ctx := Ctx.cpg, mutated := false,
    n_reads := 3, meth := 1 / 3 }

/-- The reverse-strand CpG mate of `siteA` (adjacent position). -/
def siteB : MSite :=
  { chrom := 1, pos := 11, fwd_strand := false, ctx := Ctx.cpg, mutated := false,
    n_reads := 5, meth := 2 / 5 }

/-- A later forward-strand CpG that is not a mate of `siteB`. -/
def siteA2 : MSite :=
  { chrom := 1, pos := 20, fwd_strand := true, ctx := Ctx.cpg, mutated := false,
    n_reads := 2, meth := 1 }

/-- A covered CHH site between `siteA` and a potential mate. -/
def siteX : MSite :=
  { chrom := 1, pos := 15, fwd_strand := true, ctx := Ctx.chh, mutated := false,
    n_reads := 4, meth := 1 / 2 }

/-- The stored previous site after a (successful) driver step, with a default
for the error case. -/
def prev_after (r : Except RunError DriverState) (d : MSite) : MSite :=
  match r with
  | Except.ok st => st.prev_site
  | Except.error _ => d

/-- The symmetric-CpG counter after a driver run, with the empty counter as
default for the error case. -/
def sym_counter (r : Except RunError DriverState) : LevelsCounter :=
  match r with
  | Except.ok st => st.lc.cpg_symmetric
  | Except.error _ => LevelsCounter.default

/-- The pending-CpG flag after a driver run, with a default for the error
case. -/
def pending_flag (r : Except RunError DriverState) (d : Bool) : Bool :=
  match r with
  | Except.ok st => st.prev_is_cpg
  | Except.error _ => d

/-- C5 (counterexample): with CpG `siteA` stored as pending previous site,
processing the non-CpG record `siteX` does NOT leave the stored previous
site unchanged — `prev_site` becomes `siteX` (the loop ends with
`prev_site = site` on every iteration). -/
theorem pairing_state_cex :
    prev_after (processLine ciStub
        { lc := LC.default, prev_site := siteA, prev_is_cpg := true }
        (some siteX)) siteA ≠ siteA := by
  decide

/-- C5 (amended): processing a classifiable non-CpG record leaves the
pending-CpG flag unchanged but REPLACES the stored previous site with that
record; and since a non-CpG record is never a valid mate, a pending CpG
separated from a later CpG by an intervening non-CpG record is not merged
(the mate test is applied to the intervening record instead). -/
theorem nonCpG_pairing_effect (ci : ℕ → ℚ → ℚ × ℚ) (st : DriverState) (s : MSite)
    (hnc : s.is_cpg = false) (hcl : (s.is_chh || s.is_ccg || s.is_cxg) = true) :
    ∃ st2, processLine ci st (some s) = Except.ok st2 ∧
      st2.prev_is_cpg = st.prev_is_cpg ∧ st2.prev_site = s ∧
      ∀ b : MSite, s.is_mate_of b = false := by
  have hmate : ∀ b : MSite, s.is_mate_of b = false := by
    intro b
    simp [MSite.is_mate_of, hnc]
  by_cases h1 : s.is_chh = true
  · refine ⟨{ lc := { st.lc with
                cytosine := st.lc.cytosine.update ci s,
                chh := st.lc.chh.update ci s },
              prev_site := s, prev_is_cpg := st.prev_is_cpg },
      ?_, rfl, rfl, hmate⟩
    simp [processLine, hnc, h1]
  · by_cases h2 : s.is_ccg = true
    · refine ⟨{ lc := { st.lc with
                  cytosine := st.lc.cytosine.update ci s,
                  ccg := st.lc.ccg.update ci s },
                prev_site := s, prev_is_cpg := st.prev_is_cpg },
        ?_, rfl, rfl, hmate⟩
      simp [processLine, hnc, h1, h2]
    · have h3 : s.is_cxg = true := by
        simpa [h1, h2] using hcl
      refine ⟨{ lc := { st.lc with
                  cytosine := st.lc.cytosine.update ci s,
                  cxg := st.lc.cxg.update ci s },
                prev_site := s, prev_is_cpg := st.prev_is_cpg },
        ?_, rfl, rfl, hmate⟩
      simp [processLine, hnc, h1, h2, h3]

/-- Witness for the amended C5 at a concrete pending state and CHH record. -/
theorem nonCpG_pairing_effect_witness :
    ∃ st2, processLine ciStub
        { lc := LC.default, prev_site := siteA, prev_is_cpg := true }
        (some siteX) = Except.ok st2 ∧
      st2.prev_is_cpg = true ∧ st2.prev_site = siteX ∧
      ∀ b : MSite, siteX.is_mate_of b = false :=
  nonCpG_pairing_effect ciStub
    { lc := LC.default, prev_site := siteA, prev_is_cpg := true } siteX rfl rfl

/-- C6: feeding mutual mates A then B from the initial state performs exactly
one symmetric-CpG `update`, with the merged observation — whose `n_reads` is
`A.n_reads + B.n_reads` — and clears the pending flag; appending a non-mate
CpG A2 leaves the symmetric-CpG counter exactly as after [A, B]. -/
theorem mate_pair_merge (ci : ℕ → ℚ → ℚ × ℚ) (A B A2 : MSite)
    (hA : A.is_cpg = true) (hB : B.is_cpg = true) (hmate : A.is_mate_of B = true)
    (hA2 : A2.is_cpg = true) (hnm : B.is_mate_of A2 = false) :
    sym_counter (processAll ci initState [some A, some B])
        = LevelsCounter.default.update ci (A.add B) ∧
    (A.add B).n_reads = A.n_reads + B.n_reads ∧
    (sym_counter (processAll ci initState [some A, some B])).total_sites = 1 ∧
    pending_flag (processAll ci initState [some A, some B]) true = false ∧
    sym_counter (processAll ci initState [some A, some B, some A2])
        = sym_counter (processAll ci initState [some A, some B]) := by
  have h12 : processAll ci initState [some A, some B]
      = processAll ci initState [some A, some B] := rfl
  refine ⟨?_, ?_, ?_, ?_, ?_⟩
  · simp [processAll, processLine, initState, LC.default, sym_counter,
      hA, hB, hmate]
  · simp [MSite.add]
  · have h : sym_counter (processAll ci initState [some A, some B])
        = LevelsCounter.default.update ci (A.add B) := by
      simp [processAll, processLine, initState, LC.default, sym_counter,
        hA, hB, hmate]
    rw [h, update_total_sites]
    simp [LevelsCounter.default]
  · simp [processAll, processLine, initState, LC.default, pending_flag,
      hA, hB, hmate]
  · simp [processAll, processLine, initState, LC.default, sym_counter,
      hA, hB, hmate, hA2]

/-- Witness for C6 at concrete mate sites `siteA`, `siteB` and the non-mate
CpG `siteA2`. -/
theorem mate_pair_merge_witness :
    sym_counter (processAll ciStub initState [some siteA, some siteB])
        = LevelsCounter.default.update ciStub (siteA.add siteB) ∧
    (siteA.add siteB).n_reads = siteA.n_reads + siteB.n_reads ∧
    (sym_counter (processAll ciStub initState [some siteA, some siteB])).total_sites
        = 1 ∧
    pending_flag (processAll ciStub initState [some siteA, some siteB]) true
        = false ∧
    sym_counter (processAll ciStub initState [some siteA, some siteB, some siteA2])
        = sym_counter (processAll ciStub initState [some siteA, some siteB]) :=
  mate_pair_merge ciStub siteA siteB siteA2 rfl rfl rfl rfl rfl

/-- An input line that makes the run abort: an unparseable line (`none`) or a
parsed record matching none of the four context classes. -/
def bad_input (inp : Option MSite) : Bool :=
  match inp with
  | none => true
  | some s => !(s.is_cpg || s.is_chh || s.is_ccg || s.is_cxg)

/-- Whether a driver result is a success. -/
def is_ok (r : Except RunError DriverState) : Bool :=
  match r with
  | Except.ok _ => true
  | Except.error _ => false

lemma processLine_good (ci : ℕ → ℚ → ℚ × ℚ) (st : DriverState) (inp : Option MSite)
    (h : bad_input inp = false) : is_ok (processLine ci st inp) = true := by
  match inp with
  | none => simp [bad_input] at h
  | some s =>
    by_cases h1 : s.is_cpg = true
    · by_cases hp : (st.prev_is_cpg && st.prev_site.is_mate_of s) = true
      · simp [processLine, h1, hp, is_ok]
      · simp [processLine, h1, hp, is_ok]
    · by_cases h2 : s.is_chh = true
      · simp [processLine, h1, h2, is_ok]
      · by_cases h3 : s.is_ccg = true
        · simp [processLine, h1, h2, h3, is_ok]
        · have h4 : s.is_cxg = true := by
            simp [bad_input, h1, h2, h3] at h
            exact h
          simp [processLine, h1, h2, h3, h4, is_ok]

lemma processAll_error_of_bad (ci : ℕ → ℚ → ℚ × ℚ) (l : List (Option MSite))
    (st : DriverState) (h : ∃ i ∈ l, bad_input i = true) :
    ∃ e, processAll ci st l = Except.error e := by
  induction l generalizing st with
  | nil => simp at h
  | cons a l ih =>
    rcases h with ⟨i, hi, hbad⟩
    rcases List.mem_cons.mp hi with rfl | hmem
    · cases i with
      | none => exact ⟨RunError.parse_failure, by simp [processAll, processLine]⟩
      | some s =>
        have h' : s.is_cpg = false ∧ s.is_chh = false ∧ s.is_ccg = false ∧
            s.is_cxg = false := by
          simpa [bad_input, and_assoc] using hbad
        refine ⟨RunError.bad_site_type, ?_⟩
        simp [processAll, processLine, h'.1, h'.2.1, h'.2.2.1, h'.2.2.2]
    · cases hres : processLine ci st a with
      | error e => exact ⟨e, by simp [processAll, hres]⟩
      | ok st2 =>
        rcases ih st2 ⟨i, hmem, hbad⟩ with ⟨e, he⟩
        exact ⟨e, by simp [processAll, hres, he]⟩

/-- C9: if any input line fails to parse, or any parsed record matches none
of the four context classes, the whole run returns a fatal error and no
report is produced, regardless of how many valid lines preceded it. -/
theorem fatal_on_bad_input (ci : ℕ → ℚ → ℚ × ℚ) (inputs : List (Option MSite))
    (h : ∃ i ∈ inputs, bad_input i = true) :
    ∃ e, run_mlevels ci inputs = Except.error e := by
  rcases processAll_error_of_bad ci inputs initState h with ⟨e, he⟩
  exact ⟨e, by simp [run_mlevels, he]⟩

/-- Witness for C9 on the one-line input whose line fails to parse. -/
theorem fatal_on_bad_input_witness :
    ∃ e, run_mlevels ciStub [none] = Except.error e :=
  fatal_on_bad_input ciStub [none] ⟨none, by simp, rfl⟩

end Mlevels
